import Mathlib

/-!
Verification development for the `metroverse_scraper` repository's
flattening / row-building / schema-unification core.

The embedding models:
* JSON values (`Json`) as produced by `response.json()` / `json.loads`
  (numbers are modelled as integers; Python dicts are association lists
  in insertion order, rebuilt through `pydict` which implements Python's
  `dict(items)` semantics: first-occurrence key order, last value wins);
* `flatten_dict` from `basic_extractor.py` (lines 220-238) and
  `api_extractor.py` (lines 213-232) — the two functions are textually
  identical, so one definition embeds both;
* `flatten_nested_data` from `enhanced_extractor.py` (lines 128-149);
* `flatten_json_to_rows` from `basic_extractor.py` (lines 194-218);
* the row construction of `convert_to_csv` from `api_extractor.py`
  (lines 173-193), called `convertRows` here;
* the CSV field computation and `csv.DictWriter` serialization of
  `save_to_csv` (basic_extractor, lines 167-192), including the
  `row['city_id'] = city_id` overwrite and the `['city_id'] + sorted(...)`
  header rule, plus `data_processor.save_csv`'s plain `sorted(keys)` rule;
* the endpoint-discovery loop `discover_working_endpoints` from
  `api_extractor.py` (lines 92-108), parameterized by a probe function
  standing for the I/O-performing `test_endpoint`.
-/

/-- JSON values. Python dicts are modelled as association lists in insertion
order; numbers as integers (floats are not needed by any claim). -/
inductive Json where
  | null : Json
  | bool (b : Bool) : Json
  | num (n : Int) : Json
  | str (s : String) : Json
  | arr (elems : List Json) : Json
  | obj (fields : List (String × Json)) : Json

/-- A scalar in the sense of the spec: string, number, boolean or null —
never a nested object or array. -/
def isScalar : Json → Bool
  | .null | .bool _ | .num _ | .str _ => true
  | .arr _ | .obj _ => false

/-- Python truthiness of a JSON value (`if data:`): `None`, `False`, `0`,
`""`, `[]` and `{}` are falsy, everything else truthy. -/
def pyTruthy : Json → Bool
  | .null => false
  | .bool b => b
  | .num n => n ≠ 0
  | .str s => s ≠ ""
  | .arr es => !es.isEmpty
  | .obj kvs => !kvs.isEmpty

/-- Keys of an association list, in order (Python `dict.keys()`). -/
def dictKeys {α : Type} (d : List (String × α)) : List String := d.map Prod.fst

/-- Python dict lookup `d.get(k)` / `d[k]`: value of the (unique) entry
with key `k`, if any. -/
def dictGet {α : Type} (d : List (String × α)) (k : String) : Option α :=
  (d.find? (fun p => p.1 = k)).map Prod.snd

/-- Python dict assignment `d[k] = v`: overwrite in place if the key
exists (keeping its position), otherwise append a new entry. -/
def dictSet {α : Type} (d : List (String × α)) (k : String) (v : α) :
    List (String × α) :=
  if d.any (fun p => p.1 = k) then d.map (fun p => if p.1 = k then (k, v) else p)
  else d ++ [(k, v)]

/-- Python `dict(items)`: build a dict by successive assignment, so keys
keep their first-occurrence position and the last value for a key wins. -/
def pydict {α : Type} (l : List (String × α)) : List (String × α) :=
  l.foldl (fun acc p => dictSet acc p.1 p.2) []

/-- A single-quote character, as used by Python `repr` of strings. -/
def squote : String := String.singleton (Char.ofNat 39)

mutual
/-- Python `repr()` restricted to the JSON fragment: `None`/`True`/`False`,
decimal integers, single-quoted strings (string escaping is not modelled;
the inputs of interest contain no quote characters), bracketed lists and
braced dicts with `", "` separators. -/
def pyRepr : Json → String
  | .null => "None"
  | .bool true => "True"
  | .bool false => "False"
  | .num n => toString n
  | .str s => squote ++ s ++ squote
  | .arr es => "[" ++ pyReprList es ++ "]"
  | .obj kvs => "\x7b" ++ pyReprObj kvs ++ "\x7d"
/-- Comma-separated `repr`s of list elements. -/
def pyReprList : List Json → String
  | [] => ""
  | [v] => pyRepr v
  | v :: rest => pyRepr v ++ ", " ++ pyReprList rest
/-- Comma-separated `'key': repr(value)` pairs of dict entries. -/
def pyReprObj : List (String × Json) → String
  | [] => ""
  | [(k, v)] => squote ++ k ++ squote ++ ": " ++ pyRepr v
  | (k, v) :: rest => squote ++ k ++ squote ++ ": " ++ pyRepr v ++ ", " ++ pyReprObj rest
end

/-- Python `str()` on the JSON fragment: identity on strings, `repr`
otherwise (as used by `', '.join(map(str, v))`). -/
def pyStr : Json → String
  | .str s => s
  | v => pyRepr v

/-- Key construction `f"{parent_key}{sep}{k}" if parent_key else k`
(the empty parent key is falsy in Python). -/
def mkKey (pk sep k : String) : String :=
  if pk = "" then k else pk ++ sep ++ k

mutual
/-- Loop body of `flatten_dict` over the remaining items of the dict:
for each `(k, v)` the entries contributed for that field, concatenated
(the closing `dict(items)` is applied by `flatten_dict` itself). -/
def flattenItems : List (String × Json) → String → String → List (String × Json)
  | [], _, _ => []
  | (k, v) :: rest, pk, sep =>
      flattenValue v (mkKey pk sep k) sep ++ flattenItems rest pk sep
/-- Entries contributed by one value `v` stored under flattened key `nk`:
a nested dict recurses; a list whose first element is a dict yields the
`_count` summary entry plus the flattening of the first element under
`nk ++ "_first"`; any other list is joined with `", "` into one string
entry; a scalar is emitted as is. This mirrors the `if/elif/else` over
`v` in `flatten_dict` (basic_extractor.py lines 223-237). -/
def flattenValue : Json → String → String → List (String × Json)
  | .obj kvs, nk, sep => pydict (flattenItems kvs nk sep)
  | .arr (.obj kvs0 :: rest), nk, sep =>
      (nk ++ "_count", .num (Int.ofNat (rest.length + 1)))
        :: pydict (flattenItems kvs0 (nk ++ "_first") sep)
  | .arr vs, nk, _ => [(nk, .str (String.intercalate ", " (vs.map pyStr)))]
  | v, nk, _ => [(nk, v)]
end

/-- `flatten_dict(d, parent_key, sep)` of basic_extractor.py lines 220-238
and (identically) api_extractor.py lines 213-232. -/
def flatten_dict (d : List (String × Json)) (pk sep : String) :
    List (String × Json) :=
  pydict (flattenItems d pk sep)

mutual
/-- Item stream of `flatten_nested_data` (enhanced_extractor.py lines
128-149): dict fields and list elements are recursively flattened under
`_`-joined (respectively index-suffixed) keys, scalars emitted directly;
a bare scalar is emitted under the current key. -/
def fndItems : Json → String → List (String × Json)
  | .obj kvs, pk => fndObjItems kvs pk
  | .arr vs, pk => fndArrItems vs 0 pk
  | v, pk => [(pk, v)]
/-- Dict branch of `flatten_nested_data`: each field under
`f"{prefix}_{key}" if prefix else key`. A dict or list value is merged
via the recursive call (`flattened.update(...)`); for a scalar value the
direct assignment `flattened[new_key] = value` coincides with the
recursive call's single entry. -/
def fndObjItems : List (String × Json) → String → List (String × Json)
  | [], _ => []
  | (k, v) :: rest, pk =>
      pydict (fndItems v (mkKey pk "_" k)) ++ fndObjItems rest pk
/-- List branch of `flatten_nested_data`: element `i` under
`f"{prefix}_{i}" if prefix else str(i)`, merged or assigned as in the
dict branch. -/
def fndArrItems : List Json → Nat → String → List (String × Json)
  | [], _, _ => []
  | item :: rest, i, pk =>
      pydict (fndItems item (mkKey pk "_" (Nat.repr i))) ++ fndArrItems rest (i + 1) pk
end

/-- `flatten_nested_data(data, prefix)` of enhanced_extractor.py lines
128-149: the successive `flattened.update(...)` / `flattened[k] = v`
calls amount to `dict` of the concatenated item stream. -/
def flatten_nested_data (j : Json) (pk : String) : List (String × Json) :=
  pydict (fndItems j pk)

mutual
/-- True iff a value is an object all of whose fields are themselves
hereditarily empty objects — exactly the values whose `flatten_dict`
contribution is empty. -/
def hereditarilyEmpty : Json → Bool
  | .obj kvs => hListEmpty kvs
  | _ => false
/-- All values of the fields are hereditarily empty objects. -/
def hListEmpty : List (String × Json) → Bool
  | [] => true
  | (_, v) :: rest => hereditarilyEmpty v && hListEmpty rest
end

/-- A flat row: what the Python code passes to `csv.DictWriter`. -/
abbrev Row := List (String × Json)

/-- List branch of `flatten_json_to_rows` (basic_extractor.py lines
199-205): a dict element becomes its flattening (under the same prefix),
a non-dict element `i` becomes the single-entry row `{prefix}value_{i}`. -/
def rowsFromList : List Json → Nat → String → List Row
  | [], _, _ => []
  | .obj kvs :: rest, i, pk => flatten_dict kvs pk "_" :: rowsFromList rest (i + 1) pk
  | item :: rest, i, pk =>
      [(pk ++ "value_" ++ Nat.repr i, item)] :: rowsFromList rest (i + 1) pk

/-- `flatten_json_to_rows(json_obj, prefix)` of basic_extractor.py lines
194-218: lists yield one row per element, dicts one flattened row,
scalars (including `None`) one `{prefix}value` row. -/
def flatten_json_to_rows (j : Json) (pk : String) : List Row :=
  match j with
  | .arr items => rowsFromList items 0 pk
  | .obj kvs => [flatten_dict kvs pk "_"]
  | v => [[(pk ++ "value", v)]]

/-- Row construction of `convert_to_csv` (api_extractor.py lines 176-193):
each dict element (or the payload itself, if a dict) is flattened and then
`flat['city_id'] = city_id` is assigned; non-dict elements and scalar
payloads become `{'value': ..., 'city_id': city_id}` rows. -/
def convertRows (j : Json) (cid : String) : List Row :=
  match j with
  | .arr items =>
      items.map (fun item =>
        match item with
        | .obj kvs => dictSet (flatten_dict kvs "" "_") "city_id" (.str cid)
        | v => [("value", v), ("city_id", .str cid)])
  | .obj kvs => [dictSet (flatten_dict kvs "" "_") "city_id" (.str cid)]
  | v => [[("value", v), ("city_id", .str cid)]]

/-- The `row['city_id'] = city_id` loop of `save_to_csv`
(basic_extractor.py lines 173-175). -/
def withCity (data : List Row) (cid : String) : List Row :=
  data.map (fun r => dictSet r "city_id" (.str cid))

/-- Boolean lexicographic comparison of character lists, mirroring
Python's string comparison (code-point lexicographic). -/
def lexLe : List Char → List Char → Bool
  | [], _ => true
  | _ :: _, [] => false
  | a :: as, b :: bs => if a = b then lexLe as bs else decide (a < b)

/-- Boolean string comparison used to model Python `sorted` executably. -/
def strLe (s t : String) : Bool := lexLe s.data t.data

/-- The distinct keys occurring across all rows
(`all_keys = set(); all_keys.update(row.keys())`, basic_extractor.py
lines 178-180). -/
def allKeys (rows : List Row) : List String :=
  (rows.flatMap dictKeys).dedup

/-- Python `sorted` on the key set: the sorted list of the distinct keys
(lexicographic by code point; `strLe` is proved below to coincide with
`String`'s linear order). -/
def sortedKeys (rows : List Row) : List String :=
  List.insertionSort (fun a b => strLe a b = true) (allKeys rows)

/-- Header rule of `save_to_csv` / `convert_to_csv`:
`['city_id'] + [key for key in sorted(all_keys) if key != 'city_id']`. -/
def fieldnamesOf (rows : List Row) : List String :=
  "city_id" :: (sortedKeys rows).filter (· ≠ "city_id")

/-- Header rule of `data_processor.save_csv` (data_processor.py lines
48-65): plain `sorted(keys)`, with no column forced first. -/
def save_csv_fieldnames (rows : List Row) : List String :=
  sortedKeys rows

/-- Conversion of one cell value by the `csv` writer: `None` is written
as the empty string, anything else via `str()`. -/
def csvCell : Json → String
  | .null => ""
  | v => pyStr v

/-- One serialized cell: `rowdict.get(key, restval)` with the default
`restval=None` of `csv.DictWriter`, which the writer emits as `""`. -/
def cellOf (r : Row) (f : String) : String :=
  match dictGet r f with
  | some v => csvCell v
  | none => ""

/-- `csv.DictWriter._dict_to_list`: raises `ValueError` (here: `none`) if
the row has a key outside `fieldnames`, else emits one cell per field. -/
def writeRow (fields : List String) (r : Row) : Option (List String) :=
  if r.all (fun kv => fields.contains kv.1) then some (fields.map (cellOf r))
  else none

/-- `save_to_csv(data, filename, city_id)` of basic_extractor.py lines
167-192, as a pure function returning the header and the serialized grid:
empty input writes nothing; otherwise `city_id` is assigned into every
row, the header is computed, and `DictWriter.writerows` serializes each
row (any row key outside the header would raise, yielding `none`). -/
def save_to_csv (data : List Row) (cid : String) :
    Option (List String × List (List String)) :=
  if data.isEmpty then none
  else
    match (withCity data cid).mapM (writeRow (fieldnamesOf (withCity data cid))) with
    | some grid => some (fieldnamesOf (withCity data cid), grid)
    | none => none

/-- Python `s.split('/')` on the character list: splitting on every
slash, keeping empty segments (so the result is never empty). -/
def splitSlash : List Char → List (List Char)
  | [] => [[]]
  | c :: rest =>
      match splitSlash rest with
      | [] => [[]]
      | g :: gs => if c = '/' then [] :: g :: gs else (c :: g) :: gs

/-- Last URL segment naming a strategy: `endpoint.split('/')[-1] or 'root'`
(api_extractor.py line 101; the empty string is falsy). -/
def endpointName (e : String) : String :=
  match (splitSlash e.data).getLast? with
  | some g => if g.isEmpty then "root" else String.mk g
  | none => "root"

/-- Loop of `discover_working_endpoints` (api_extractor.py lines 98-105):
each endpoint is probed; a truthy payload is stored under
`f"{endpoint_name}_{len(working_data)}"` (dict assignment), a falsy or
absent payload is skipped and the loop continues with the next endpoint. -/
def discoverLoop (probe : String → Option Json) :
    List String → List (String × (String × Json)) → List (String × (String × Json))
  | [], acc => acc
  | e :: rest, acc =>
      match probe e with
      | some d =>
          if pyTruthy d then
            discoverLoop probe rest
              (dictSet acc (endpointName e ++ "_" ++ Nat.repr acc.length) (e, d))
          else discoverLoop probe rest acc
      | none => discoverLoop probe rest acc

/-- `discover_working_endpoints(city_id)` of api_extractor.py lines
92-108, with `test_endpoint` abstracted into the probe function. -/
def discover_working_endpoints (probe : String → Option Json)
    (endpoints : List String) : List (String × (String × Json)) :=
  discoverLoop probe endpoints []

/-- Whether a probe of endpoint `e` yields a truthy payload
(`data = self.test_endpoint(...); if data:`). -/
def truthyProbe (probe : String → Option Json) (e : String) : Bool :=
  match probe e with
  | some d => pyTruthy d
  | none => false

/-- Closed form of the entries appended by `discoverLoop` when started
with a dict of size `n`: one entry per truthy probe, numbered upward. -/
def discoverSpec (probe : String → Option Json) :
    List String → Nat → List (String × (String × Json))
  | [], _ => []
  | e :: rest, n =>
      match probe e with
      | some d =>
          if pyTruthy d then
            (endpointName e ++ "_" ++ Nat.repr n, (e, d)) :: discoverSpec probe rest (n + 1)
          else discoverSpec probe rest n
      | none => discoverSpec probe rest n

/-- Decimal digits of a natural number, most significant first — a
fuel-free restatement of `Nat.toDigits 10` used to reason about the
`f"{name}_{len(working_data)}"` keys. -/
def toDigits10 (n : Nat) : List Char :=
  if n < 10 then [Nat.digitChar n]
  else toDigits10 (n / 10) ++ [Nat.digitChar (n % 10)]
termination_by n
decreasing_by exact Nat.div_lt_self (by omega) (by omega)

/-- Value of a most-significant-first decimal digit list. -/
def digitsVal (cs : List Char) : Nat :=
  cs.foldl (fun a c => a * 10 + (c.toNat - 48)) 0

/-- Whether the first element of a list is a JSON object — the condition
`len(v) > 0 and isinstance(v[0], dict)` of `flatten_dict`. -/
def headIsObj : List Json → Bool
  | .obj _ :: _ => true
  | _ => false

/-- Concrete probe used to instantiate the discovery theorems: succeeds
with payload `1` on `/api/x` only. -/
def probeA : String → Option Json :=
  fun e => if e = "/api/x" then some (Json.num 1) else none

/-- Concrete probe returning a non-null but falsy (empty-object) payload
on every endpoint. -/
def probeEmptyObj : String → Option Json :=
  fun _ => some (Json.obj [])

/-! ## Helper lemmas: Python dict semantics -/

theorem mem_dictSet {α : Type} {d : List (String × α)} {k : String} {v : α}
    {p : String × α} (hp : p ∈ dictSet d k v) : p ∈ d ∨ p = (k, v) := by
  unfold dictSet at hp
  split at hp
  · rcases List.mem_map.1 hp with ⟨q, hq, hpq⟩
    by_cases h : q.1 = k
    · simp only [h, if_pos] at hpq
      exact Or.inr hpq.symm
    · simp only [h, if_neg, not_false_iff] at hpq
      exact Or.inl (hpq ▸ hq)
  · rcases List.mem_append.1 hp with h | h
    · exact Or.inl h
    · exact Or.inr (List.mem_singleton.1 h)

theorem dictSet_fresh {α : Type} {d : List (String × α)} {k : String} {v : α}
    (h : ∀ q ∈ d, q.1 ≠ k) : dictSet d k v = d ++ [(k, v)] := by
  unfold dictSet
  rw [if_neg]
  simp only [List.any_eq_true, decide_eq_true_eq, not_exists, not_and]
  intro q hq
  exact h q hq

theorem dictSet_ne_nil {α : Type} (d : List (String × α)) (k : String) (v : α) :
    dictSet d k v ≠ [] := by
  unfold dictSet
  split
  · intro hmap
    rename_i hany
    rw [List.map_eq_nil_iff.1 hmap] at hany
    simp at hany
  · simp

theorem mem_dictKeys_dictSet {α : Type} (d : List (String × α)) (k : String) (v : α)
    (x : String) : x ∈ dictKeys (dictSet d k v) ↔ x = k ∨ x ∈ dictKeys d := by
  unfold dictSet dictKeys
  split
  · rename_i hany
    rw [List.map_map]
    have : (Prod.fst ∘ fun p : String × α => if p.1 = k then (k, v) else p) = Prod.fst := by
      funext p
      by_cases h : p.1 = k <;> simp [h]
    rw [this]
    constructor
    · intro hx
      exact Or.inr hx
    · rintro (rfl | hx)
      · simp only [List.any_eq_true, decide_eq_true_eq] at hany
        rcases hany with ⟨q, hq, hqk⟩
        exact List.mem_map.2 ⟨q, hq, hqk⟩
      · exact hx
  · simp only [List.map_append, List.mem_append, List.map_cons, List.map_nil,
      List.mem_singleton]
    tauto

theorem dictSet_cons_ne {α : Type} {q : String × α} {d : List (String × α)}
    {k : String} (v : α) (h : q.1 ≠ k) :
    dictSet (q :: d) k v = q :: dictSet d k v := by
  have hany : (q :: d).any (fun p => decide (p.1 = k))
      = d.any (fun p => decide (p.1 = k)) := by
    simp [List.any_cons, h]
  unfold dictSet
  rw [hany]
  by_cases hb : d.any (fun p => decide (p.1 = k)) = true
  · rw [if_pos hb, if_pos hb, List.map_cons, if_neg h]
  · rw [if_neg hb, if_neg hb, List.cons_append]

theorem dictGet_dictSet_self {α : Type} (d : List (String × α)) (k : String) (v : α) :
    dictGet (dictSet d k v) k = some v := by
  induction d with
  | nil => simp [dictSet, dictGet]
  | cons q d ih =>
    by_cases hq : q.1 = k
    · unfold dictSet
      rw [if_pos (by simp [List.any_cons, hq]), List.map_cons, if_pos hq]
      simp [dictGet, List.find?]
    · rw [dictSet_cons_ne v hq]
      simpa [dictGet, List.find?, hq] using ih

theorem dictGet_eq_none_iff {α : Type} (d : List (String × α)) (k : String) :
    dictGet d k = none ↔ k ∉ dictKeys d := by
  unfold dictGet dictKeys
  rw [Option.map_eq_none', List.find?_eq_none]
  simp only [decide_eq_true_eq, List.mem_map]
  constructor
  · rintro h ⟨q, hq, rfl⟩
    exact h q hq rfl
  · rintro h q hq rfl
    exact h ⟨q, hq, rfl⟩

theorem mem_foldl_dictSet {α : Type} :
    ∀ (l : List (String × α)) (acc : List (String × α)) (p : String × α),
      p ∈ l.foldl (fun acc q => dictSet acc q.1 q.2) acc → p ∈ acc ∨ p ∈ l
  | [], _, _, h => Or.inl h
  | q :: l, acc, p, h => by
      rcases mem_foldl_dictSet l (dictSet acc q.1 q.2) p h with h' | h'
      · rcases mem_dictSet h' with h'' | h''
        · exact Or.inl h''
        · have hpq : p = q := by rw [h'', Prod.mk.eta]
          exact Or.inr (hpq ▸ List.mem_cons_self q l)
      · exact Or.inr (List.mem_cons_of_mem _ h')

theorem mem_pydict {α : Type} {l : List (String × α)} {p : String × α}
    (h : p ∈ pydict l) : p ∈ l :=
  (mem_foldl_dictSet l [] p h).resolve_left (List.not_mem_nil p)

theorem foldl_dictSet_ne_nil {α : Type} :
    ∀ (l : List (String × α)) (acc : List (String × α)), acc ≠ [] →
      l.foldl (fun acc q => dictSet acc q.1 q.2) acc ≠ []
  | [], _, h => h
  | q :: l, acc, _ =>
      foldl_dictSet_ne_nil l (dictSet acc q.1 q.2) (dictSet_ne_nil acc q.1 q.2)

theorem pydict_eq_nil_iff {α : Type} (l : List (String × α)) :
    pydict l = [] ↔ l = [] := by
  constructor
  · intro h
    by_contra hne
    rcases List.exists_cons_of_ne_nil hne with ⟨q, l', rfl⟩
    exact foldl_dictSet_ne_nil l' (dictSet [] q.1 q.2) (dictSet_ne_nil [] q.1 q.2) h
  · rintro rfl
    rfl

theorem dictSet_append_left {α : Type} {a : List (String × α)} (b : List (String × α))
    {k : String} (v : α) (h : ∀ p ∈ a, p.1 ≠ k) :
    dictSet (a ++ b) k v = a ++ dictSet b k v := by
  unfold dictSet
  have ha : a.any (fun p => p.1 = k) = false := by
    simp only [List.any_eq_false, decide_eq_true_eq]
    exact h
  rw [List.any_append, ha, Bool.false_or]
  split
  · rw [List.map_append]
    congr 1
    have := List.map_congr_left (l := a)
      (f := fun p : String × α => if p.1 = k then (k, v) else p) (g := id)
      (fun p hp => by simp [h p hp])
    simpa using this
  · rw [List.append_assoc]

theorem foldl_dictSet_append_left {α : Type} :
    ∀ (l : List (String × α)) (a b : List (String × α)),
      (∀ q ∈ l, ∀ p ∈ a, p.1 ≠ q.1) →
      l.foldl (fun acc q => dictSet acc q.1 q.2) (a ++ b)
        = a ++ l.foldl (fun acc q => dictSet acc q.1 q.2) b
  | [], _, _, _ => rfl
  | q :: l, a, b, h => by
      have hq : ∀ p ∈ a, p.1 ≠ q.1 := fun p hp => h q (List.mem_cons_self q l) p hp
      show (q :: l).foldl (fun acc q => dictSet acc q.1 q.2) (a ++ b) = _
      rw [List.foldl_cons, List.foldl_cons, dictSet_append_left b q.2 hq]
      exact foldl_dictSet_append_left l a (dictSet b q.1 q.2)
        (fun q' hq' p hp => h q' (List.mem_cons_of_mem _ hq') p hp)

theorem pydict_cons_fresh {α : Type} {l : List (String × α)} {k : String} {v : α}
    (h : ∀ q ∈ l, q.1 ≠ k) : pydict ((k, v) :: l) = (k, v) :: pydict l := by
  unfold pydict
  rw [List.foldl_cons]
  have h0 : dictSet ([] : List (String × α)) k v = [(k, v)] := rfl
  rw [h0]
  have := foldl_dictSet_append_left l [(k, v)] []
    (fun q hq p hp => by
      rw [List.mem_singleton.1 hp]
      exact fun hkq => (h q hq) hkq.symm)
  simpa using this

theorem dictKeys_dictSet_nodup {α : Type} {d : List (String × α)} (k : String) (v : α)
    (h : (dictKeys d).Nodup) : (dictKeys (dictSet d k v)).Nodup := by
  unfold dictSet
  split
  · unfold dictKeys at h ⊢
    rw [List.map_map]
    have heq : (Prod.fst ∘ fun p : String × α => if p.1 = k then (k, v) else p)
        = Prod.fst := by
      funext p
      by_cases hp : p.1 = k <;> simp [hp]
    rwa [heq]
  · rename_i hany
    unfold dictKeys at h ⊢
    rw [List.map_append]
    refine List.Nodup.append h (by simp) ?_
    intro x hx hx'
    simp only [List.map_cons, List.map_nil, List.mem_singleton] at hx'
    subst hx'
    simp only [Bool.not_eq_true, List.any_eq_false, decide_eq_true_eq] at hany
    rcases List.mem_map.1 hx with ⟨p, hp, rfl⟩
    exact hany p hp rfl

theorem dictKeys_nodup_foldl {α : Type} :
    ∀ (l : List (String × α)) (acc : List (String × α)),
      (dictKeys acc).Nodup →
      (dictKeys (l.foldl (fun acc q => dictSet acc q.1 q.2) acc)).Nodup
  | [], _, h => h
  | q :: l, acc, h =>
      dictKeys_nodup_foldl l (dictSet acc q.1 q.2) (dictKeys_dictSet_nodup q.1 q.2 h)

theorem pydict_nodupKeys {α : Type} (l : List (String × α)) :
    (dictKeys (pydict l)).Nodup :=
  dictKeys_nodup_foldl l [] (by simp [dictKeys])

theorem pydict_eq_self {α : Type} :
    ∀ {l : List (String × α)}, (dictKeys l).Nodup → pydict l = l := by
  intro l
  induction l with
  | nil => intro _; rfl
  | cons q l ih =>
    intro h
    unfold dictKeys at h
    rw [List.map_cons, List.nodup_cons] at h
    have hfresh : ∀ p ∈ l, p.1 ≠ q.1 := by
      intro p hp hpq
      exact h.1 (hpq ▸ List.mem_map_of_mem Prod.fst hp)
    calc pydict (q :: l) = pydict ((q.1, q.2) :: l) := by rw [Prod.mk.eta]
    _ = (q.1, q.2) :: pydict l := pydict_cons_fresh hfresh
    _ = q :: l := by rw [Prod.mk.eta, ih h.2]

/-! ## Helper lemmas: string comparison -/

theorem lexLe_iff : ∀ as bs : List Char, lexLe as bs = true ↔ ¬ List.Lex (· < ·) bs as
  | [], bs => by
      simp only [lexLe]
      exact iff_of_true trivial (List.Lex.not_nil_right _ _)
  | a :: as, [] => by
      simp only [lexLe]
      exact iff_of_false (by simp) (not_not_intro List.Lex.nil)
  | a :: as, b :: bs => by
      rw [lexLe]
      by_cases hab : a = b
      · subst hab
        rw [if_pos rfl, lexLe_iff as bs]
        constructor
        · intro h hlex
          cases hlex with
          | cons h' => exact h h'
          | rel h' => exact absurd h' (lt_irrefl a)
        · intro h h'
          exact h (List.Lex.cons h')
      · rw [if_neg hab]
        simp only [decide_eq_true_eq]
        constructor
        · intro hlt hlex
          cases hlex with
          | cons h' => exact hab rfl
          | rel h' => exact absurd hlt (asymm h')
        · intro h
          rcases lt_trichotomy a b with h1 | h1 | h1
          · exact h1
          · exact absurd h1 hab
          · exact absurd (List.Lex.rel h1) h

theorem strLe_iff (s t : String) : strLe s t = true ↔ s ≤ t := by
  rw [String.le_iff_toList_le]
  rw [show (s.toList ≤ t.toList) ↔ ¬ (t.toList < s.toList) from not_lt.symm]
  exact lexLe_iff s.data t.data

/-! ## Helper lemmas: decimal representation of naturals -/

theorem digitChar_isDigit : ∀ m : Nat, m < 10 → (Nat.digitChar m).isDigit = true := by decide

theorem digitChar_val : ∀ m : Nat, m < 10 → (Nat.digitChar m).toNat - 48 = m := by decide

theorem toDigitsCore_eq :
    ∀ (f n : Nat) (ds : List Char), n < f →
      Nat.toDigitsCore 10 f n ds = toDigits10 n ++ ds := by
  intro f
  induction f with
  | zero => intro n ds h; omega
  | succ f ih =>
    intro n ds h
    show Nat.toDigitsCore 10 (f + 1) n ds = toDigits10 n ++ ds
    rw [Nat.toDigitsCore]
    by_cases h0 : n / 10 = 0
    · have hn : n < 10 := (Nat.div_eq_zero_iff (by omega)).1 h0
      simp only [h0, if_pos]
      rw [toDigits10, if_pos hn, Nat.mod_eq_of_lt hn]
      rfl
    · have h10 : 10 ≤ n := by
        by_contra hc
        exact h0 ((Nat.div_eq_zero_iff (by omega)).2 (by omega))
      have hdiv : n / 10 < n := Nat.div_lt_self (by omega) (by omega)
      have hlt : n / 10 < f := by omega
      simp only [h0, if_neg, ite_false]
      rw [ih (n / 10) _ hlt]
      conv_rhs => rw [toDigits10]
      rw [if_neg (by omega : ¬ n < 10)]
      simp [List.append_assoc]
  
theorem nat_repr_eq_toDigits10 (n : Nat) : Nat.repr n = (toDigits10 n).asString := by
  show (Nat.toDigits 10 n).asString = _
  rw [Nat.toDigits, toDigitsCore_eq (n + 1) n [] (Nat.lt_succ_self n), List.append_nil]

theorem toDigits10_all_digits (n : Nat) : ∀ c ∈ toDigits10 n, c.isDigit = true := by
  induction n using Nat.strong_induction_on with
  | _ n ih =>
    rw [toDigits10]
    split
    · rename_i hlt
      intro c hc
      rw [List.mem_singleton.1 hc]
      exact digitChar_isDigit n hlt
    · rename_i hge
      intro c hc
      rcases List.mem_append.1 hc with h | h
      · exact ih (n / 10) (Nat.div_lt_self (by omega) (by omega)) c h
      · rw [List.mem_singleton.1 h]
        exact digitChar_isDigit _ (Nat.mod_lt n (by omega))

theorem digitsVal_append_singleton (cs : List Char) (c : Char) :
    digitsVal (cs ++ [c]) = digitsVal cs * 10 + (c.toNat - 48) := by
  unfold digitsVal
  rw [List.foldl_append]
  rfl

theorem digitsVal_toDigits10 (n : Nat) : digitsVal (toDigits10 n) = n := by
  induction n using Nat.strong_induction_on with
  | _ n ih =>
    rw [toDigits10]
    split
    · rename_i hlt
      show digitsVal [Nat.digitChar n] = n
      have : digitsVal [Nat.digitChar n] = (Nat.digitChar n).toNat - 48 := by
        unfold digitsVal
        simp
      rw [this, digitChar_val n hlt]
    · rename_i hge
      rw [digitsVal_append_singleton,
        ih (n / 10) (Nat.div_lt_self (by omega) (by omega)),
        digitChar_val (n % 10) (Nat.mod_lt n (by omega))]
      omega

theorem nat_repr_inj {m n : Nat} (h : Nat.repr m = Nat.repr n) : m = n := by
  rw [nat_repr_eq_toDigits10, nat_repr_eq_toDigits10] at h
  have hdata : toDigits10 m = toDigits10 n := by
    have := congrArg String.data h
    simpa using this
  calc m = digitsVal (toDigits10 m) := (digitsVal_toDigits10 m).symm
  _ = digitsVal (toDigits10 n) := by rw [hdata]
  _ = n := digitsVal_toDigits10 n

theorem nat_repr_no_underscore (n : Nat) : '_' ∉ (Nat.repr n).data := by
  rw [nat_repr_eq_toDigits10]
  intro hmem
  have hdig : ('_').isDigit = true := toDigits10_all_digits n '_' (by simpa using hmem)
  exact absurd hdig (by decide)

theorem append_underscore_inj_data :
    ∀ (xs ys us vs : List Char), '_' ∉ us → '_' ∉ vs →
      xs ++ '_' :: us = ys ++ '_' :: vs → xs = ys ∧ us = vs
  | [], [], us, vs, _, _, h => by simpa using h
  | [], y :: ys, us, vs, hu, _, h => by
      simp only [List.nil_append, List.cons_append, List.cons.injEq] at h
      exact absurd (h.2 ▸ List.mem_append.2 (Or.inr (List.mem_cons_self _ _))) hu
  | x :: xs, [], us, vs, _, hv, h => by
      simp only [List.nil_append, List.cons_append, List.cons.injEq] at h
      exact absurd (h.2 ▸ List.mem_append.2 (Or.inr (List.mem_cons_self _ _))) hv
  | x :: xs, y :: ys, us, vs, hu, hv, h => by
      simp only [List.cons_append, List.cons.injEq] at h
      have hrec := append_underscore_inj_data xs ys us vs hu hv h.2
      exact ⟨by rw [h.1, hrec.1], hrec.2⟩

theorem append_nat_repr_inj {a b : String} {m n : Nat}
    (h : a ++ "_" ++ Nat.repr m = b ++ "_" ++ Nat.repr n) : a = b ∧ m = n := by
  have hd := congrArg String.data h
  simp only [String.data_append] at hd
  rw [List.append_assoc, List.append_assoc, List.singleton_append,
    List.singleton_append] at hd
  have hsplit := append_underscore_inj_data a.data b.data _ _
    (nat_repr_no_underscore m) (nat_repr_no_underscore n) hd
  constructor
  · exact String.ext hsplit.1
  · exact nat_repr_inj (String.ext hsplit.2)

/-! ## Helper lemmas: the flattener -/

theorem mem_flattenItems :
    ∀ (d : List (String × Json)) (pk sep : String) (p : String × Json),
      p ∈ flattenItems d pk sep →
      ∃ k v, (k, v) ∈ d ∧ p ∈ flattenValue v (mkKey pk sep k) sep
  | [], _, _, p, hp => by simp [flattenItems] at hp
  | (k, v) :: rest, pk, sep, p, hp => by
      rw [flattenItems] at hp
      rcases List.mem_append.1 hp with h | h
      · exact ⟨k, v, List.mem_cons_self _ _, h⟩
      · rcases mem_flattenItems rest pk sep p h with ⟨k', v', hm, hv⟩
        exact ⟨k', v', List.mem_cons_of_mem _ hm, hv⟩

mutual
theorem flattenItems_keys : ∀ (d : List (String × Json)) (pk sep : String),
    pk ≠ "" → ∀ p ∈ flattenItems d pk sep, ∃ m, p.1 = pk ++ m
  | [], _, _, _, p, hp => by simp [flattenItems] at hp
  | (k, v) :: rest, pk, sep, hpk, p, hp => by
      rw [flattenItems] at hp
      rcases List.mem_append.1 hp with h | h
      · rcases flattenValue_keys v (mkKey pk sep k) sep p h with ⟨m, hm⟩
        refine ⟨sep ++ (k ++ m), ?_⟩
        rw [hm]
        unfold mkKey
        rw [if_neg hpk]
        rw [String.append_assoc, String.append_assoc]
      · exact flattenItems_keys rest pk sep hpk p h
theorem flattenValue_keys : ∀ (v : Json) (nk sep : String),
    ∀ p ∈ flattenValue v nk sep, ∃ m, p.1 = nk ++ m
  | .null, nk, sep, p, hp => by
      simp only [flattenValue, List.mem_singleton] at hp
      exact ⟨"", by rw [hp, String.append_empty]⟩
  | .bool b, nk, sep, p, hp => by
      simp only [flattenValue, List.mem_singleton] at hp
      exact ⟨"", by rw [hp, String.append_empty]⟩
  | .num n, nk, sep, p, hp => by
      simp only [flattenValue, List.mem_singleton] at hp
      exact ⟨"", by rw [hp, String.append_empty]⟩
  | .str s, nk, sep, p, hp => by
      simp only [flattenValue, List.mem_singleton] at hp
      exact ⟨"", by rw [hp, String.append_empty]⟩
  | .obj kvs, nk, sep, p, hp => by
      rw [flattenValue] at hp
      have hp' := mem_pydict hp
      by_cases hnk : nk = ""
      · subst hnk
        refine ⟨p.1, ?_⟩
        apply String.ext
        simp [String.data_append]
      · exact flattenItems_keys kvs nk sep hnk p hp'
  | .arr [], nk, sep, p, hp => by
      simp only [flattenValue, List.mem_singleton] at hp
      exact ⟨"", by rw [hp, String.append_empty]⟩
  | .arr (.null :: rest), nk, sep, p, hp => by
      simp only [flattenValue, List.mem_singleton] at hp
      exact ⟨"", by rw [hp, String.append_empty]⟩
  | .arr (.bool b :: rest), nk, sep, p, hp => by
      simp only [flattenValue, List.mem_singleton] at hp
      exact ⟨"", by rw [hp, String.append_empty]⟩
  | .arr (.num n :: rest), nk, sep, p, hp => by
      simp only [flattenValue, List.mem_singleton] at hp
      exact ⟨"", by rw [hp, String.append_empty]⟩
  | .arr (.str s :: rest), nk, sep, p, hp => by
      simp only [flattenValue, List.mem_singleton] at hp
      exact ⟨"", by rw [hp, String.append_empty]⟩
  | .arr (.arr es :: rest), nk, sep, p, hp => by
      simp only [flattenValue, List.mem_singleton] at hp
      exact ⟨"", by rw [hp, String.append_empty]⟩
  | .arr (.obj kvs0 :: rest), nk, sep, p, hp => by
      rw [flattenValue] at hp
      rcases List.mem_cons.1 hp with h | h
      · exact ⟨"_count", by rw [h]⟩
      · have hp' := mem_pydict h
        have hne : nk ++ "_first" ≠ "" := by
          intro hc
          have := congrArg String.data hc
          simp [String.data_append] at this
        rcases flattenItems_keys kvs0 (nk ++ "_first") sep hne p hp' with ⟨m, hm⟩
        exact ⟨"_first" ++ m, by rw [hm, String.append_assoc]⟩
end

mutual
theorem flattenItems_scalar : ∀ (d : List (String × Json)) (pk sep : String),
    ∀ p ∈ flattenItems d pk sep, isScalar p.2 = true
  | [], _, _, p, hp => by simp [flattenItems] at hp
  | (k, v) :: rest, pk, sep, p, hp => by
      rw [flattenItems] at hp
      rcases List.mem_append.1 hp with h | h
      · exact flattenValue_scalar v (mkKey pk sep k) sep p h
      · exact flattenItems_scalar rest pk sep p h
theorem flattenValue_scalar : ∀ (v : Json) (nk sep : String),
    ∀ p ∈ flattenValue v nk sep, isScalar p.2 = true
  | .null, nk, sep, p, hp => by
      simp only [flattenValue, List.mem_singleton] at hp
      rw [hp]
      rfl
  | .bool b, nk, sep, p, hp => by
      simp only [flattenValue, List.mem_singleton] at hp
      rw [hp]
      rfl
  | .num n, nk, sep, p, hp => by
      simp only [flattenValue, List.mem_singleton] at hp
      rw [hp]
      rfl
  | .str s, nk, sep, p, hp => by
      simp only [flattenValue, List.mem_singleton] at hp
      rw [hp]
      rfl
  | .obj kvs, nk, sep, p, hp => by
      rw [flattenValue] at hp
      exact flattenItems_scalar kvs nk sep p (mem_pydict hp)
  | .arr [], nk, sep, p, hp => by
      simp only [flattenValue, List.mem_singleton] at hp
      rw [hp]
      rfl
  | .arr (.null :: rest), nk, sep, p, hp => by
      simp only [flattenValue, List.mem_singleton] at hp
      rw [hp]
      rfl
  | .arr (.bool b :: rest), nk, sep, p, hp => by
      simp only [flattenValue, List.mem_singleton] at hp
      rw [hp]
      rfl
  | .arr (.num n :: rest), nk, sep, p, hp => by
      simp only [flattenValue, List.mem_singleton] at hp
      rw [hp]
      rfl
  | .arr (.str s :: rest), nk, sep, p, hp => by
      simp only [flattenValue, List.mem_singleton] at hp
      rw [hp]
      rfl
  | .arr (.arr es :: rest), nk, sep, p, hp => by
      simp only [flattenValue, List.mem_singleton] at hp
      rw [hp]
      rfl
  | .arr (.obj kvs0 :: rest), nk, sep, p, hp => by
      rw [flattenValue] at hp
      rcases List.mem_cons.1 hp with h | h
      · rw [h]
        rfl
      · exact flattenItems_scalar kvs0 (nk ++ "_first") sep p (mem_pydict h)
end

mutual
theorem flattenItems_eq_nil : ∀ (d : List (String × Json)) (pk sep : String),
    flattenItems d pk sep = [] ↔ hListEmpty d = true
  | [], _, _ => by simp [flattenItems, hListEmpty]
  | (k, v) :: rest, pk, sep => by
      rw [flattenItems]
      rw [List.append_eq_nil]
      rw [flattenValue_eq_nil v (mkKey pk sep k) sep, flattenItems_eq_nil rest pk sep]
      show _ ↔ hListEmpty ((k, v) :: rest) = true
      rw [hListEmpty]
      rw [Bool.and_eq_true]
theorem flattenValue_eq_nil : ∀ (v : Json) (nk sep : String),
    flattenValue v nk sep = [] ↔ hereditarilyEmpty v = true
  | .null, nk, sep => by simp [flattenValue, hereditarilyEmpty]
  | .bool b, nk, sep => by simp [flattenValue, hereditarilyEmpty]
  | .num n, nk, sep => by simp [flattenValue, hereditarilyEmpty]
  | .str s, nk, sep => by simp [flattenValue, hereditarilyEmpty]
  | .obj kvs, nk, sep => by
      rw [flattenValue, pydict_eq_nil_iff, flattenItems_eq_nil kvs nk sep]
      show _ ↔ hereditarilyEmpty (.obj kvs) = true
      rw [hereditarilyEmpty]
  | .arr [], nk, sep => by simp [flattenValue, hereditarilyEmpty]
  | .arr (.null :: rest), nk, sep => by simp [flattenValue, hereditarilyEmpty]
  | .arr (.bool b :: rest), nk, sep => by simp [flattenValue, hereditarilyEmpty]
  | .arr (.num n :: rest), nk, sep => by simp [flattenValue, hereditarilyEmpty]
  | .arr (.str s :: rest), nk, sep => by simp [flattenValue, hereditarilyEmpty]
  | .arr (.arr es :: rest), nk, sep => by simp [flattenValue, hereditarilyEmpty]
  | .arr (.obj kvs0 :: rest), nk, sep => by simp [flattenValue, hereditarilyEmpty]
end

/-! ## Helper lemmas: the discovery cascade -/

theorem discoverLoop_eq (probe : String → Option Json) :
    ∀ (es : List String) (acc : List (String × (String × Json))),
      (∀ p ∈ acc, ∃ nm j, p.1 = nm ++ "_" ++ Nat.repr j ∧ j < acc.length) →
      discoverLoop probe es acc = acc ++ discoverSpec probe es acc.length
  | [], acc, _ => by simp [discoverLoop, discoverSpec]
  | e :: es, acc, hinv => by
      rw [discoverLoop, discoverSpec]
      cases hprobe : probe e with
      | none => simpa using discoverLoop_eq probe es acc hinv
      | some d =>
        cases htr : pyTruthy d with
        | false => simpa [htr] using discoverLoop_eq probe es acc hinv
        | true =>
          simp only [htr, if_pos]
          have hfresh : ∀ q ∈ acc, q.1 ≠ endpointName e ++ "_" ++ Nat.repr acc.length := by
            intro q hq hkey
            rcases hinv q hq with ⟨nm, j, hqk, hj⟩
            have := append_nat_repr_inj (hqk ▸ hkey)
            omega
          rw [dictSet_fresh hfresh]
          have hinv' : ∀ p ∈ acc ++ [(endpointName e ++ "_" ++ Nat.repr acc.length, (e, d))],
              ∃ nm j, p.1 = nm ++ "_" ++ Nat.repr j
                ∧ j < (acc ++ [(endpointName e ++ "_" ++ Nat.repr acc.length, (e, d))]).length := by
            intro p hp
            rw [List.length_append]
            rcases List.mem_append.1 hp with h | h
            · rcases hinv p h with ⟨nm, j, hk, hj⟩
              exact ⟨nm, j, hk, by simpa using Nat.lt_succ_of_lt hj⟩
            · rw [List.mem_singleton.1 h]
              exact ⟨endpointName e, acc.length, rfl, by simp⟩
          rw [discoverLoop_eq probe es _ hinv']
          rw [List.length_append]
          simp [List.append_assoc]

theorem discover_eq_spec (probe : String → Option Json) (es : List String) :
    discover_working_endpoints probe es = discoverSpec probe es 0 := by
  rw [discover_working_endpoints, discoverLoop_eq probe es [] (by simp)]
  simp

theorem discoverSpec_length (probe : String → Option Json) :
    ∀ (es : List String) (n : Nat),
      (discoverSpec probe es n).length = (es.filter (fun e => truthyProbe probe e)).length
  | [], _ => rfl
  | e :: es, n => by
      rw [discoverSpec, List.filter_cons]
      cases hprobe : probe e with
      | none =>
        have ht : truthyProbe probe e = false := by simp [truthyProbe, hprobe]
        rw [ht]
        simpa using discoverSpec_length probe es n
      | some d =>
        cases htr : pyTruthy d with
        | false =>
          have ht : truthyProbe probe e = false := by simp [truthyProbe, hprobe, htr]
          rw [ht]
          simpa [htr] using discoverSpec_length probe es n
        | true =>
          have ht : truthyProbe probe e = true := by simp [truthyProbe, hprobe, htr]
          rw [ht]
          simp only [htr, if_pos, if_true, List.length_cons]
          rw [discoverSpec_length probe es (n + 1)]

theorem discoverSpec_mem (probe : String → Option Json) :
    ∀ (es : List String) (n : Nat) (e : String), e ∈ es → truthyProbe probe e = true →
      ∃ key d, (key, (e, d)) ∈ discoverSpec probe es n
  | [], _, _, he, _ => absurd he (List.not_mem_nil _)
  | e' :: es, n, e, he, htr => by
      rcases List.mem_cons.1 he with rfl | hmem
      · have hd : ∃ d, probe e = some d ∧ pyTruthy d = true := by
          unfold truthyProbe at htr
          cases hp : probe e with
          | none => rw [hp] at htr; simp at htr
          | some d => rw [hp] at htr; exact ⟨d, rfl, htr⟩
        rcases hd with ⟨d, hp, hpt⟩
        refine ⟨endpointName e ++ "_" ++ Nat.repr n, d, ?_⟩
        simp [discoverSpec, hp, hpt]
      · rw [discoverSpec]
        cases hprobe : probe e' with
        | none => exact discoverSpec_mem probe es n e hmem htr
        | some d =>
          cases htr' : pyTruthy d with
          | false => simpa [htr'] using discoverSpec_mem probe es n e hmem htr
          | true =>
            rcases discoverSpec_mem probe es (n + 1) e hmem htr with ⟨key, d', hd⟩
            exact ⟨key, d', by simp [htr', List.mem_cons, hd]⟩

/-! ## Helper lemmas: string disequalities used by the flattener claims -/

theorem append_first_ne_count (a m : String) :
    a ++ ("_first" ++ m) ≠ a ++ "_count" := by
  intro h
  have hd := congrArg String.data h
  simp only [String.data_append] at hd
  have h2 := List.append_cancel_left hd
  have h3 : ('_' :: 'f' :: 'i' :: 'r' :: 's' :: 't' :: []) ++ m.data
      = ('_' :: 'c' :: 'o' :: 'u' :: 'n' :: 't' :: []) := h2
  simp only [List.cons_append, List.cons.injEq] at h3
  exact absurd h3.2.1 (by decide)

theorem append_first_ne_empty (a : String) : a ++ "_first" ≠ "" := by
  intro hc
  have := congrArg String.data hc
  simp [String.data_append] at this

theorem flatten_dict_singleton_arrobj (k pk sep : String)
    (e0 : List (String × Json)) (rest : List Json) :
    flatten_dict [(k, Json.arr (Json.obj e0 :: rest))] pk sep
      = (mkKey pk sep k ++ "_count", Json.num (Int.ofNat (rest.length + 1)))
          :: flatten_dict e0 (mkKey pk sep k ++ "_first") sep := by
  unfold flatten_dict
  rw [flattenItems, flattenItems, List.append_nil, flattenValue]
  have hfresh : ∀ q ∈ pydict (flattenItems e0 (mkKey pk sep k ++ "_first") sep),
      q.1 ≠ mkKey pk sep k ++ "_count" := by
    intro q hq hqk
    rcases flattenItems_keys e0 (mkKey pk sep k ++ "_first") sep
      (append_first_ne_empty (mkKey pk sep k)) q (mem_pydict hq) with ⟨m, hm⟩
    rw [hm, String.append_assoc] at hqk
    exact append_first_ne_count (mkKey pk sep k) m hqk
  rw [pydict_cons_fresh hfresh, pydict_eq_self (pydict_nodupKeys _)]

/-! ## Claims C1, C2, C3 -/

/-- C1 (counterexample): the claim asserts the array-of-objects summary
behaviour of "the flattener" also for `enhanced_extractor.flatten_nested_data`
(cited in its sources), but that function enumerates every element under
index-suffixed keys: on `{"a": [{"x": 1}, {"y": 2}]}` it emits an entry
derived from element 1 and no `a_count` entry at all. -/
theorem C1_counterexample :
    flatten_nested_data
        (Json.obj [("a", Json.arr [Json.obj [("x", Json.num 1)],
          Json.obj [("y", Json.num 2)]])]) ""
      = [("a_0_x", Json.num 1), ("a_1_y", Json.num 2)]
    ∧ dictGet (flatten_nested_data
        (Json.obj [("a", Json.arr [Json.obj [("x", Json.num 1)],
          Json.obj [("y", Json.num 2)]])]) "") "a_count" = none
    ∧ dictGet (flatten_nested_data
        (Json.obj [("a", Json.arr [Json.obj [("x", Json.num 1)],
          Json.obj [("y", Json.num 2)]])]) "") "a_1_y" = some (Json.num 2) :=
  ⟨rfl, rfl, rfl⟩

/-- C1 (amended): for `flatten_dict` (basic/api extractors), a dictionary
field holding a nonempty array whose first element is an object — in
particular any nonempty array of objects — flattens to exactly one
`_count` entry valued `N` plus the flattening of element 0 under the
`_first`-extended key, and the output does not depend on elements
1..N-1 beyond their number. -/
theorem C1_theorem (k pk sep : String) (e0 : List (String × Json))
    (rest rest' : List Json) (hlen : rest'.length = rest.length) :
    flatten_dict [(k, Json.arr (Json.obj e0 :: rest))] pk sep
        = (mkKey pk sep k ++ "_count", Json.num (Int.ofNat (rest.length + 1)))
            :: flatten_dict e0 (mkKey pk sep k ++ "_first") sep
      ∧ ((flatten_dict [(k, Json.arr (Json.obj e0 :: rest))] pk sep).filter
            (fun p => p.1 = mkKey pk sep k ++ "_count")).length = 1
      ∧ flatten_dict [(k, Json.arr (Json.obj e0 :: rest'))] pk sep
          = flatten_dict [(k, Json.arr (Json.obj e0 :: rest))] pk sep := by
  refine ⟨flatten_dict_singleton_arrobj k pk sep e0 rest, ?_, ?_⟩
  · rw [flatten_dict_singleton_arrobj, List.filter_cons]
    have hnil : (flatten_dict e0 (mkKey pk sep k ++ "_first") sep).filter
        (fun p => p.1 = mkKey pk sep k ++ "_count") = [] := by
      rw [List.filter_eq_nil_iff]
      intro q hq
      rcases flattenItems_keys e0 (mkKey pk sep k ++ "_first") sep
        (append_first_ne_empty (mkKey pk sep k)) q (mem_pydict hq) with ⟨m, hm⟩
      simp only [decide_eq_true_eq]
      rw [hm, String.append_assoc]
      exact append_first_ne_count (mkKey pk sep k) m
    simp [hnil]
  · rw [flatten_dict_singleton_arrobj, flatten_dict_singleton_arrobj, hlen]

theorem C1_witness :
    flatten_dict [("a", Json.arr [Json.obj [("x", Json.num 1)],
        Json.obj [("y", Json.num 2)]])] "" "_"
      = flatten_dict [("a", Json.arr [Json.obj [("x", Json.num 1)],
        Json.obj [("z", Json.str "w")]])] "" "_" :=
  ((C1_theorem ("a") ("") ("_") [("x", Json.num 1)] [Json.obj [("y", Json.num 2)]]
    [Json.obj [("z", Json.str "w")]] rfl).2.2).symm

/-- C2 (counterexample): the object `{"a": {}}` is a non-null JSON value
(an object containing an empty-object field), yet `flatten_dict` returns
the empty mapping for it, contradicting the claimed non-emptiness. -/
theorem C2_counterexample :
    flatten_dict [("a", Json.obj [])] "" "_" = [] := rfl

/-- C2 (amended): for every non-null JSON value, every value in the
flattened mapping is a scalar (never a nested object or array), and the
mapping is non-empty if and only if the value is not a hereditarily
empty object (an object all of whose fields recursively flatten to
nothing, e.g. `{}` or `{"a": {}}`). -/
theorem C2_theorem (v : Json) (nk sep : String) (_hv : v ≠ Json.null) :
    (∀ p ∈ flattenValue v nk sep, isScalar p.2 = true)
      ∧ (flattenValue v nk sep = [] ↔ hereditarilyEmpty v = true) :=
  ⟨fun p hp => flattenValue_scalar v nk sep p hp, flattenValue_eq_nil v nk sep⟩

theorem C2_witness :
    flattenValue (Json.obj [("a", Json.num 1)]) "" "_" ≠ [] := fun heq => by
  have h := (C2_theorem (Json.obj [("a", Json.num 1)]) "" "_" (by simp)).2.mp heq
  exact absurd h (by decide)

/-- C3 (counterexample): the mixed array `[{"x": 1}, 2]` is not composed
entirely of objects, yet `flatten_dict` takes the count/first summary
branch (it only inspects element 0), emitting no entry at all under the
field's key `"a"` instead of one joined-string entry. -/
theorem C3_counterexample :
    flatten_dict [("a", Json.arr [Json.obj [("x", Json.num 1)], Json.num 2])] "" "_"
        = [("a_count", Json.num 2), ("a_first_x", Json.num 1)]
      ∧ (flatten_dict [("a", Json.arr [Json.obj [("x", Json.num 1)], Json.num 2])] "" "_").filter
          (fun p => p.1 = "a") = [] :=
  ⟨rfl, rfl⟩

/-- C3 (amended): for every dictionary field whose value is an array that
is empty or whose first element is not an object, `flatten_dict` emits
exactly one entry under the field's prefixed key, holding the `", "`-join
of the stringified elements; an empty array yields the empty string, not
an absent key. -/
theorem C3_theorem (k pk sep : String) (vs : List Json) (h : headIsObj vs = false) :
    flatten_dict [(k, Json.arr vs)] pk sep
        = [(mkKey pk sep k, Json.str (String.intercalate ", " (vs.map pyStr)))]
      ∧ flatten_dict [(k, Json.arr [])] pk sep = [(mkKey pk sep k, Json.str "")] := by
  constructor
  · cases vs with
    | nil => rfl
    | cons hd t =>
      cases hd with
      | obj kvs => simp [headIsObj] at h
      | null => rfl
      | bool b => rfl
      | num n => rfl
      | str s => rfl
      | arr es => rfl
  · rfl

theorem C3_witness :
    flatten_dict [("tags", Json.arr [Json.str "a", Json.str "b", Json.str "c"])] "" "_"
        = [("tags", Json.str "a, b, c")]
      ∧ flatten_dict [("tags", Json.arr [])] "" "_" = [("tags", Json.str "")] :=
  ⟨(C3_theorem ("tags") ("") ("_") [Json.str "a", Json.str "b", Json.str "c"] rfl).1,
   (C3_theorem ("tags") ("") ("_") [Json.str "a", Json.str "b", Json.str "c"] rfl).2⟩

/-! ## Helper lemmas: the schema unifier -/

theorem allKeys_perm {rows rows' : List Row} (h : rows.Perm rows') :
    (allKeys rows).Perm (allKeys rows') := by
  unfold allKeys
  exact (h.flatMap_right dictKeys).dedup

theorem mem_sortedKeys {rows : List Row} {x : String} :
    x ∈ sortedKeys rows ↔ ∃ r ∈ rows, x ∈ dictKeys r := by
  unfold sortedKeys
  rw [(List.perm_insertionSort _ _).mem_iff]
  unfold allKeys
  rw [List.mem_dedup, List.mem_flatMap]

theorem sortedKeys_sorted (rows : List Row) :
    List.Sorted (· ≤ ·) (sortedKeys rows) := by
  haveI htot : IsTotal String (fun a b => strLe a b = true) := ⟨fun a b => by
    rcases le_total a b with h | h
    · exact Or.inl ((strLe_iff a b).2 h)
    · exact Or.inr ((strLe_iff b a).2 h)⟩
  haveI htrans : IsTrans String (fun a b => strLe a b = true) := ⟨fun a b c hab hbc =>
    (strLe_iff a c).2 (le_trans ((strLe_iff a b).1 hab) ((strLe_iff b c).1 hbc))⟩
  have hs := List.sorted_insertionSort (fun a b => strLe a b = true) (allKeys rows)
  exact hs.imp (fun {a b} hab => (strLe_iff a b).1 hab)

theorem sortedKeys_nodup (rows : List Row) : (sortedKeys rows).Nodup :=
  ((List.perm_insertionSort _ _).nodup_iff).2 (List.nodup_dedup _)

theorem sortedKeys_congr {rows rows' : List Row} (h : rows.Perm rows') :
    sortedKeys rows = sortedKeys rows' :=
  List.eq_of_perm_of_sorted
    (((List.perm_insertionSort _ _).trans (allKeys_perm h)).trans
      (List.perm_insertionSort _ _).symm)
    (sortedKeys_sorted rows) (sortedKeys_sorted rows')

theorem withCity_cityid {data : List Row} {cid : String} {r : Row}
    (hr : r ∈ withCity data cid) : dictGet r "city_id" = some (Json.str cid) := by
  unfold withCity at hr
  rcases List.mem_map.1 hr with ⟨r0, _, rfl⟩
  exact dictGet_dictSet_self r0 "city_id" (Json.str cid)

theorem mem_fieldnamesOf (rows : List Row) (x : String) :
    x ∈ fieldnamesOf rows ↔ x = "city_id" ∨ ∃ r ∈ rows, x ∈ dictKeys r := by
  unfold fieldnamesOf
  rw [List.mem_cons, List.mem_filter]
  constructor
  · rintro (rfl | ⟨hmem, _⟩)
    · exact Or.inl rfl
    · exact Or.inr (mem_sortedKeys.1 hmem)
  · rintro (rfl | hex)
    · exact Or.inl rfl
    · by_cases hx : x = "city_id"
      · exact Or.inl hx
      · refine Or.inr ⟨mem_sortedKeys.2 hex, by simp [hx]⟩

theorem mapM_option_eq_map {α β : Type} (f : α → Option β) (g : α → β) :
    ∀ l : List α, (∀ a ∈ l, f a = some (g a)) → l.mapM f = some (l.map g)
  | [], _ => rfl
  | a :: l, h => by
      rw [List.mapM_cons, h a (List.mem_cons_self _ _),
        mapM_option_eq_map f g l (fun b hb => h b (List.mem_cons_of_mem _ hb))]
      rfl

theorem writeRow_eq {data : List Row} {cid : String} {r : Row}
    (hr : r ∈ withCity data cid) :
    writeRow (fieldnamesOf (withCity data cid)) r
      = some ((fieldnamesOf (withCity data cid)).map (cellOf r)) := by
  unfold writeRow
  rw [if_pos]
  rw [List.all_eq_true]
  intro kv hkv
  show List.elem kv.1 (fieldnamesOf (withCity data cid)) = true
  rw [List.elem_iff]
  exact (mem_fieldnamesOf _ _).2 (Or.inr ⟨r, hr, List.mem_map_of_mem Prod.fst hkv⟩)

/-! ## Claims C4, C5 -/

/-- C4 (counterexample): `data_processor.save_csv` — one of the unifier
implementations the claim cites — sorts all keys with no column forced
first: on a row with keys `a` and `city_id` its header starts with `a`,
not the subject column. -/
theorem C4_counterexample :
    save_csv_fieldnames [[("a", Json.num 1), ("city_id", Json.str "3444")]]
      = ["a", "city_id"] := rfl

/-- C4 (amended): for the unifier of `save_to_csv` / `convert_to_csv`,
the output column list is exactly the union of the (city_id-augmented)
rows' keys, with `city_id` first and the remaining columns sorted
lexicographically, and the column ordering is invariant under permuting
the input rows. (`data_processor.save_csv` instead sorts all keys with
no forced first column.) -/
theorem C4_theorem (data data' : List Row) (cid : String)
    (hne : data ≠ []) (hperm : data.Perm data') :
    (fieldnamesOf (withCity data cid)).head? = some "city_id"
      ∧ List.Sorted (· ≤ ·) (fieldnamesOf (withCity data cid)).tail
      ∧ (∀ x, x ∈ fieldnamesOf (withCity data cid)
          ↔ ∃ r ∈ withCity data cid, x ∈ dictKeys r)
      ∧ fieldnamesOf (withCity data' cid) = fieldnamesOf (withCity data cid) := by
  refine ⟨rfl, ?_, ?_, ?_⟩
  · show List.Sorted (· ≤ ·) ((sortedKeys (withCity data cid)).filter (· ≠ "city_id"))
    exact (sortedKeys_sorted _).filter _
  · intro x
    rw [mem_fieldnamesOf]
    constructor
    · rintro (rfl | hex)
      · rcases List.exists_cons_of_ne_nil hne with ⟨r0, data0, rfl⟩
        refine ⟨dictSet r0 "city_id" (Json.str cid), by simp [withCity], ?_⟩
        rw [mem_dictKeys_dictSet]
        exact Or.inl rfl
      · exact hex
    · exact fun h => Or.inr h
  · have hsk : sortedKeys (withCity data' cid) = sortedKeys (withCity data cid) :=
      sortedKeys_congr ((hperm.symm).map _)
    unfold fieldnamesOf
    rw [hsk]

theorem C4_witness :
    fieldnamesOf (withCity [[("b", Json.num 2)], [("a", Json.num 1)]] "3444")
      = fieldnamesOf (withCity [[("a", Json.num 1)], [("b", Json.num 2)]] "3444") :=
  (C4_theorem [[("a", Json.num 1)], [("b", Json.num 2)]]
    [[("b", Json.num 2)], [("a", Json.num 1)]] "3444" (by simp)
    (List.Perm.swap _ _ _)).2.2.2

/-- C5 (confirmed): for nonempty input, `save_to_csv` serializes every
(city_id-augmented) row into exactly one cell per header column — the
grid is rectangular — and a row lacking a key yields the empty string for
that column (the `DictWriter` restval), never the string `"None"` and
never an omitted cell. -/
theorem C5_theorem (data : List Row) (cid : String) (hne : data ≠ []) :
    save_to_csv data cid
        = some (fieldnamesOf (withCity data cid),
            (withCity data cid).map
              (fun r => (fieldnamesOf (withCity data cid)).map (cellOf r)))
      ∧ (∀ r ∈ withCity data cid,
            ((fieldnamesOf (withCity data cid)).map (cellOf r)).length
              = (fieldnamesOf (withCity data cid)).length)
      ∧ ∀ (r : Row) (f : String), dictGet r f = none → cellOf r f = "" := by
  refine ⟨?_, fun r _ => List.length_map _ _, fun r f hf => by unfold cellOf; rw [hf]⟩
  unfold save_to_csv
  rw [if_neg (by simpa using hne)]
  rw [mapM_option_eq_map (writeRow (fieldnamesOf (withCity data cid)))
    (fun r => (fieldnamesOf (withCity data cid)).map (cellOf r))
    (withCity data cid) (fun r hr => writeRow_eq hr)]

theorem C5_witness :
    save_to_csv [[("a", Json.num 1)], [("b", Json.num 2)]] "3444"
      = some (["city_id", "a", "b"], [["3444", "1", ""], ["3444", "", "2"]]) := by
  have h := (C5_theorem [[("a", Json.num 1)], [("b", Json.num 2)]] "3444" (by simp)).1
  rw [h]
  rfl

/-! ## Claims C6, C7, C8, C9, C10 -/

/-- C6 (counterexample): a null payload does not yield the empty row
sequence — `flatten_json_to_rows` treats `None` like any scalar and
fabricates the single row `{value: None}`. -/
theorem C6_counterexample :
    flatten_json_to_rows Json.null "" = [[("value", Json.null)]]
      ∧ flatten_json_to_rows Json.null "" ≠ [] :=
  ⟨rfl, fun h => by simp [flatten_json_to_rows] at h⟩

/-- C6 (amended): every non-null payload other than the empty array
yields a non-empty row sequence; the empty array yields the empty
sequence; a null payload is treated like a scalar and yields the single
row `{value: None}` (not the empty sequence the claim states). -/
theorem C6_theorem (j : Json) (pk : String) :
    (j ≠ Json.null → j ≠ Json.arr [] → flatten_json_to_rows j pk ≠ [])
      ∧ flatten_json_to_rows (Json.arr []) pk = []
      ∧ flatten_json_to_rows Json.null pk = [[(pk ++ "value", Json.null)]] := by
  refine ⟨?_, rfl, rfl⟩
  intro hnull harr
  cases j with
  | null => exact absurd rfl hnull
  | arr items =>
    cases items with
    | nil => exact absurd rfl harr
    | cons hd t => cases hd <;> simp [flatten_json_to_rows, rowsFromList]
  | obj kvs => simp [flatten_json_to_rows]
  | bool b => simp [flatten_json_to_rows]
  | num n => simp [flatten_json_to_rows]
  | str s => simp [flatten_json_to_rows]

theorem C6_witness : flatten_json_to_rows (Json.num 7) "" ≠ [] :=
  (C6_theorem (Json.num 7) "").1 (by simp) (by simp)

/-- C7 (counterexample): the scalar-array payload `["a", "b", "c"]`
yields three rows — one per element, each with its own `value` cell —
not a single row holding the joined string `"a, b, c"`. -/
theorem C7_counterexample :
    convertRows (Json.arr [Json.str "a", Json.str "b", Json.str "c"]) "3444"
        = [[("value", Json.str "a"), ("city_id", Json.str "3444")],
           [("value", Json.str "b"), ("city_id", Json.str "3444")],
           [("value", Json.str "c"), ("city_id", Json.str "3444")]]
      ∧ (convertRows (Json.arr [Json.str "a", Json.str "b", Json.str "c"]) "3444").length ≠ 1 :=
  ⟨rfl, by decide⟩

/-- C7 (amended): for every top-level array all of whose elements are
scalars, the row builder of `convert_to_csv` produces one row per
element, each holding that element in its `value` column alongside the
subject id; joining with `", "` happens only for arrays nested inside
objects, never for the top-level payload. -/
theorem C7_theorem (xs : List Json) (cid : String) (h : ∀ x ∈ xs, isScalar x = true) :
    convertRows (Json.arr xs) cid
      = xs.map (fun x => [("value", x), ("city_id", Json.str cid)]) := by
  unfold convertRows
  apply List.map_congr_left
  intro x hx
  cases x with
  | obj kvs => exact absurd (h _ hx) (by simp [isScalar])
  | null => rfl
  | bool b => rfl
  | num n => rfl
  | str s => rfl
  | arr es => rfl

theorem C7_witness :
    convertRows (Json.arr [Json.str "a", Json.str "b"]) "9"
      = [[("value", Json.str "a"), ("city_id", Json.str "9")],
         [("value", Json.str "b"), ("city_id", Json.str "9")]] := by
  rw [C7_theorem [Json.str "a", Json.str "b"] "9" (by decide)]
  rfl

/-- C8 (counterexample): a strategy whose probe returns the non-null but
falsy payload `{}` is dropped by the `if data:` check: one strategy
returned a non-null payload, yet the discovery result has zero entries. -/
theorem C8_counterexample :
    discover_working_endpoints probeEmptyObj ["/api/x"] = []
      ∧ (["/api/x"].filter (fun e => (probeEmptyObj e).isSome)).length = 1 :=
  ⟨rfl, rfl⟩

/-- C8 (amended): the cascade attempts every strategy regardless of
earlier successes; the discovery result has exactly one entry per
strategy whose probe returned a truthy payload (non-null and non-empty),
its entry count equals the number of such strategies and is invariant
under permuting the strategy list, and every truthy strategy — even one
probed after earlier successes — contributes an entry. -/
theorem C8_theorem (probe : String → Option Json) (es es' : List String)
    (hperm : es.Perm es') :
    (discover_working_endpoints probe es).length
        = (es.filter (fun e => truthyProbe probe e)).length
      ∧ (discover_working_endpoints probe es').length
          = (discover_working_endpoints probe es).length
      ∧ ∀ e ∈ es, truthyProbe probe e = true →
          ∃ key d, (key, (e, d)) ∈ discover_working_endpoints probe es := by
  refine ⟨?_, ?_, ?_⟩
  · rw [discover_eq_spec, discoverSpec_length]
  · rw [discover_eq_spec, discover_eq_spec, discoverSpec_length, discoverSpec_length]
    exact ((hperm.symm).filter _).length_eq
  · intro e he htr
    rw [discover_eq_spec]
    exact discoverSpec_mem probe es 0 e he htr

theorem C8_witness :
    (discover_working_endpoints probeA ["/api/y", "/api/x"]).length
      = (discover_working_endpoints probeA ["/api/x", "/api/y"]).length :=
  (C8_theorem probeA ["/api/x", "/api/y"] ["/api/y", "/api/x"]
    (List.Perm.swap _ _ _)).2.1

/-- C9 (counterexample): the row built by `convert_to_csv` for a scalar
payload carries the subject column but no `source` column at all —
provenance lives in the output filename, not in the row. -/
theorem C9_counterexample :
    convertRows (Json.num 5) "3444"
        = [[("value", Json.num 5), ("city_id", Json.str "3444")]]
      ∧ "source" ∉ dictKeys [("value", Json.num 5), ("city_id", Json.str "3444")] :=
  ⟨rfl, by decide⟩

/-- C9 (amended): every row produced by the `convert_to_csv` row builder
contains a `city_id` (subject) column, for every payload shape; no
`source` column is added — provenance is recorded only in the name of
the output table. -/
theorem C9_theorem (j : Json) (cid : String) :
    ∀ r ∈ convertRows j cid, "city_id" ∈ dictKeys r := by
  intro r hr
  cases j with
  | arr items =>
    unfold convertRows at hr
    rcases List.mem_map.1 hr with ⟨item, hitem, rfl⟩
    cases item with
    | obj kvs =>
      rw [mem_dictKeys_dictSet]
      exact Or.inl rfl
    | null => simp [dictKeys]
    | bool b => simp [dictKeys]
    | num n => simp [dictKeys]
    | str s => simp [dictKeys]
    | arr es => simp [dictKeys]
  | obj kvs =>
    simp only [convertRows, List.mem_singleton] at hr
    rw [hr, mem_dictKeys_dictSet]
    exact Or.inl rfl
  | null =>
    simp only [convertRows, List.mem_singleton] at hr
    rw [hr]
    simp [dictKeys]
  | bool b =>
    simp only [convertRows, List.mem_singleton] at hr
    rw [hr]
    simp [dictKeys]
  | num n =>
    simp only [convertRows, List.mem_singleton] at hr
    rw [hr]
    simp [dictKeys]
  | str s =>
    simp only [convertRows, List.mem_singleton] at hr
    rw [hr]
    simp [dictKeys]

theorem C9_witness :
    "city_id" ∈ dictKeys [("value", Json.num 5), ("city_id", Json.str "9")] :=
  C9_theorem (Json.num 5) "9" [("value", Json.num 5), ("city_id", Json.str "9")]
    (by simp [convertRows])

/-- C10 (confirmed): in every row emitted by `convert_to_csv` and by the
`save_to_csv` city-id pass, the `city_id` column equals the caller's
subject identifier — a payload-supplied `city_id` value is
unconditionally overwritten by the dict assignment. -/
theorem C10_theorem (j : Json) (cid : String) :
    (∀ r ∈ convertRows j cid, dictGet r "city_id" = some (Json.str cid))
      ∧ ∀ (data : List Row), ∀ r ∈ withCity data cid,
          dictGet r "city_id" = some (Json.str cid) := by
  constructor
  · intro r hr
    cases j with
    | arr items =>
      unfold convertRows at hr
      rcases List.mem_map.1 hr with ⟨item, hitem, rfl⟩
      cases item with
      | obj kvs => exact dictGet_dictSet_self _ _ _
      | null => rfl
      | bool b => rfl
      | num n => rfl
      | str s => rfl
      | arr es => rfl
    | obj kvs =>
      simp only [convertRows, List.mem_singleton] at hr
      rw [hr]
      exact dictGet_dictSet_self _ _ _
    | null =>
      simp only [convertRows, List.mem_singleton] at hr
      rw [hr]
      rfl
    | bool b =>
      simp only [convertRows, List.mem_singleton] at hr
      rw [hr]
      rfl
    | num n =>
      simp only [convertRows, List.mem_singleton] at hr
      rw [hr]
      rfl
    | str s =>
      simp only [convertRows, List.mem_singleton] at hr
      rw [hr]
      rfl
  · intro data r hr
    exact withCity_cityid hr

theorem C10_witness :
    dictGet [("city_id", Json.str "3444"), ("x", Json.num 1)] "city_id"
      = some (Json.str "3444") :=
  (C10_theorem (Json.obj [("city_id", Json.str "999"), ("x", Json.num 1)]) "3444").1
    [("city_id", Json.str "3444"), ("x", Json.num 1)]
    (by rw [show convertRows (Json.obj [("city_id", Json.str "999"), ("x", Json.num 1)]) "3444"
        = [[("city_id", Json.str "3444"), ("x", Json.num 1)]] from rfl]
        exact List.mem_singleton.2 rfl)
